import Mathlib

/-!
Verification of the autd-emulator field-slice rendering pipeline.

Shallow embedding of the Rust sources:
  - `src/autd3-emulator/src/main.rs` (`App::handle_autd`),
  - `src/acoustic_field_viewer/src/sound_source.rs` (`SoundSource`),
  - `src/acoustic_field_viewer/src/view/acoustic_field_slice_viewer.rs`
    (`AcousticFiledSliceViewer`).

`f32` values are modelled as real numbers; `i32` machine integers as `ℤ`
with explicit wrapping where Rust release-mode overflow applies; byte
values (`u8`) as `ℕ`.  Rust's saturating float-to-`u8` `as` cast is
modelled by `toU8`.
-/

set_option maxHeartbeats 1000000

noncomputable section

abbrev V3 := ℝ × ℝ × ℝ
abbrev V4 := ℝ × ℝ × ℝ × ℝ

/-- `SoundSource` from `sound_source.rs`: position, orientation, drive
amplitude and drive phase. -/
structure SoundSource where
  pos : V3
  dir : V3
  amp : ℝ
  phase : ℝ

/-- `UpdateFlag` bitflags from the viewer crate: one independent Bool per
flag bit. -/
structure UpdateFlag where
  updateSliceSize : Bool
  updateSlicePos : Bool
  initSource : Bool
  updateSourceDrive : Bool
  updateColorMap : Bool
  updateWavenum : Bool
  updateCameraPos : Bool
  updateSourceAlpha : Bool

/-- `UpdateFlag::empty()`: no bit set. -/
def UpdateFlag.empty : UpdateFlag :=
  ⟨false, false, false, false, false, false, false, false⟩

/-- Rust saturating `f32 as u8` cast: NaN aside, values are truncated
toward zero and clamped into `[0, 255]`.  For `x > -1` truncation toward
zero agrees with `⌊x⌋` after the clamp at `0`, so this covers all reals. -/
def toU8 (x : ℝ) : ℕ := (max 0 (min 255 ⌊x⌋)).toNat

/-- Phase byte written by `update_drive_texture`:
`(source.phase / (2.0 * PI) * 255.) as u8`. -/
def encodePhase (phase : ℝ) : ℕ := toU8 (phase / (2 * Real.pi) * 255)

/-- Amplitude byte written by `update_drive_texture`:
`(source.amp * 255.0) as u8`. -/
def encodeAmp (amp : ℝ) : ℕ := toU8 (amp * 255)

/-- Decoding of a phase byte back to a phase (`byte / 255 * 2π`), the
inverse direction used by the shader contract. -/
def decodePhase (b : ℕ) : ℝ := (b : ℝ) / 255 * (2 * Real.pi)

/-- Decoding of an amplitude byte back to an amplitude (`byte / 255`). -/
def decodeAmp (b : ℕ) : ℝ := (b : ℝ) / 255

/-- One texel of an 8-bit RGBA texture. -/
abbrev Texel := ℕ × ℕ × ℕ × ℕ

/-- The texel pushed per source by `update_drive_texture`:
`[phase byte, amp byte, 0x00, 0x00]`. -/
def driveTexel (s : SoundSource) : Texel :=
  (encodePhase s.phase, encodeAmp s.amp, 0, 0)

/-- Gain frame payload (`AutdData::Gain`): per-transducer phase and duty
(amplitude) bytes. -/
structure Gain where
  phases : List ℕ
  amps : List ℕ

/-- Amplitude written by the `AutdData::Gain` arm of `handle_autd`:
`(amp as f32 / 510.0 * PI).sin()`. -/
def gainAmp (ampByte : ℕ) : ℝ := Real.sin ((ampByte : ℝ) / 510 * Real.pi)

/-- Phase written by the `AutdData::Gain` arm of `handle_autd`:
`2.0 * PI * (1.0 - (phase as f32 / 255.0))`. -/
def gainPhase (phaseByte : ℕ) : ℝ :=
  2 * Real.pi * (1 - (phaseByte : ℝ) / 255)

/-- Per-source effect of one zipped `(phase, amp)` pair in the Gain arm. -/
def applyDrive (s : SoundSource) (phaseByte ampByte : ℕ) : SoundSource :=
  { s with amp := gainAmp ampByte, phase := gainPhase phaseByte }

/-- The `AutdData::Gain` arm: `gain.phases.iter().zip(gain.amps.iter())
.zip(self.sources.iter_mut())` — the loop mutates exactly the zipped
overlap of the three lists; sources beyond it are left as they were. -/
def handleGain (g : Gain) (sources : List SoundSource) : List SoundSource :=
  let pa := g.phases.zip g.amps
  List.zipWith (fun (pa : ℕ × ℕ) s => applyDrive s pa.1 pa.2) pa sources
    ++ sources.drop pa.length

/-- The `AutdData::Pause` arm's loop: `last_amp.clear()`, then for each
source in order push its amp and zero it.  Returns (new sources, new
last_amp). -/
def pauseLoop : List SoundSource → List SoundSource × List ℝ
  | [] => ([], [])
  | s :: rest =>
    let r := pauseLoop rest
    ({ s with amp := 0 } :: r.1, s.amp :: r.2)

/-- The `AutdData::Resume` arm's loop:
`self.sources.iter_mut().zip(self.last_amp.iter())` restores the zipped
overlap; sources beyond `last_amp` keep their amplitude. -/
def resumeList (sources : List SoundSource) (lastAmp : List ℝ) :
    List SoundSource :=
  List.zipWith (fun s a => { s with amp := a }) sources lastAmp
    ++ sources.drop lastAmp.length

/-- The `AutdData` command variants handled by `handle_autd` that mutate
the source array.  `geometries` carries the transducer list produced by
`make_autd_transducers` (that constructor lives in the external
`autd3_emulator_server` crate). -/
inductive AutdData where
  | geometries (transducers : List SoundSource)
  | gain (g : Gain)
  | clear
  | pause
  | resume

/-- The `App` state read and written by the source-mutating arms of
`handle_autd` (`sources` and `last_amp`). -/
structure AppState where
  sources : List SoundSource
  lastAmp : List ℝ

/-- One `AutdData` command applied by `App::handle_autd`, returning the
new state together with the `UpdateFlag` bits this command ORs into the
frame's flag. -/
def handleAutdData (d : AutdData) (st : AppState) : AppState × UpdateFlag :=
  match d with
  | .geometries transducers =>
    ({ st with sources := transducers },
     { UpdateFlag.empty with initSource := true, updateSourceDrive := true })
  | .gain g =>
    ({ st with sources := handleGain g st.sources },
     { UpdateFlag.empty with updateSourceDrive := true })
  | .clear =>
    ({ st with sources :=
        st.sources.map (fun s => { s with amp := 0, phase := 0 }) },
     { UpdateFlag.empty with updateSourceDrive := true })
  | .pause =>
    let r := pauseLoop st.sources
    ({ sources := r.1, lastAmp := r.2 },
     { UpdateFlag.empty with updateSourceDrive := true })
  | .resume =>
    ({ sources := resumeList st.sources st.lastAmp, lastAmp := [] },
     { UpdateFlag.empty with updateSourceDrive := true })

/-- Rust `i32::clamp(x, lo, hi)` (for `lo ≤ hi`). -/
def rustClamp (x lo hi : ℤ) : ℤ := max lo (min hi x)

/-- Wrapping of a mathematical integer into the `i32` value range,
modelling Rust release-mode two's-complement overflow. -/
def wrap32 (x : ℤ) : ℤ := (x + 2 ^ 31) % 2 ^ 32 - 2 ^ 31

/-- The four half-extents `(wl, wr, hb, ht)` computed by
`initialize_vertex_buf_and_slice`:
`(-width / 2).clamp(-32768, 0)`, `((width + 1) / 2).clamp(0, 32767)`,
`(-height / 2).clamp(-32768, 0)`, `((height + 1) / 2).clamp(0, 32767)`,
with Rust truncating `i32` division (`Int.tdiv`). -/
def sliceExtents (width height : ℤ) : ℤ × ℤ × ℤ × ℤ :=
  let wl := rustClamp (Int.tdiv (wrap32 (-width)) 2) (-32768) 0
  let wr := rustClamp (Int.tdiv (wrap32 (width + 1)) 2) 0 32767
  let hb := rustClamp (Int.tdiv (wrap32 (-height)) 2) (-32768) 0
  let ht := rustClamp (Int.tdiv (wrap32 (height + 1)) 2) 0 32767
  (wl, wr, hb, ht)

/-- A slice-quad vertex (`Vertex::new` fills `a_pos = [x, y, z, 1]`,
coordinates are `i16`). -/
abbrev Vertex := ℤ × ℤ × ℤ × ℤ

/-- `Vertex::new`. -/
def vertexNew (x y z : ℤ) : Vertex := (x, y, z, 1)

/-- The quad vertex data built by `initialize_vertex_buf_and_slice`. -/
def sliceVertexData (width height : ℤ) : List Vertex :=
  let e := sliceExtents width height
  [vertexNew e.1 e.2.2.1 0, vertexNew e.2.1 e.2.2.1 0,
   vertexNew e.2.1 e.2.2.2 0, vertexNew e.1 e.2.2.2 0]

/-- The index data of the slice quad (two triangles). -/
def sliceIndexData : List ℕ := [0, 1, 2, 2, 3, 0]

/-- Row-major 4×4 matrix (`Matrix4 = [[f32; 4]; 4]`, `model[3]` is the
translation row). -/
structure Mat4 where
  r0 : V4
  r1 : V4
  r2 : V4
  r3 : V4

/-- `vecmath_util::mat4_scale(s)` (external helper crate): uniform scale
matrix with homogeneous `1` in the corner. -/
def mat4Scale (s : ℝ) : Mat4 :=
  ⟨(s, 0, 0, 0), (0, s, 0, 0), (0, 0, s, 0), (0, 0, 0, 1)⟩

/-- A quaternion `(w, [x, y, z])`. -/
abbrev Quat := ℝ × V3

/-- `quaternion::euler_angles(x, y, z)` (external crate): quaternion from
Euler angles via half-angle products. -/
def quatEuler (x y z : ℝ) : Quat :=
  let sx := Real.sin (x / 2); let cx := Real.cos (x / 2)
  let sy := Real.sin (y / 2); let cy := Real.cos (y / 2)
  let sz := Real.sin (z / 2); let cz := Real.cos (z / 2)
  (cx * cy * cz + sx * sy * sz,
   (sx * cy * cz - cx * sy * sz,
    cx * sy * cz + sx * cy * sz,
    cx * cy * sz - sx * sy * cz))

/-- `vecmath_util::mat4_rot(q)` (external helper crate): homogeneous
rotation matrix of a quaternion; its translation row is `(0, 0, 0, 1)`. -/
def mat4Rot (q : Quat) : Mat4 :=
  let w := q.1; let x := q.2.1; let y := q.2.2.1; let z := q.2.2.2
  ⟨(1 - 2 * (y * y + z * z), 2 * (x * y + w * z), 2 * (x * z - w * y), 0),
   (2 * (x * y - w * z), 1 - 2 * (x * x + z * z), 2 * (y * z + w * x), 0),
   (2 * (x * z + w * y), 2 * (y * z - w * x), 1 - 2 * (x * x + y * y), 0),
   (0, 0, 0, 1)⟩

/-- Dot product of two 4-vectors. -/
def dot4 (a b : V4) : ℝ :=
  a.1 * b.1 + a.2.1 * b.2.1 + a.2.2.1 * b.2.2.1 + a.2.2.2 * b.2.2.2

/-- Column `i`-extraction helpers for `Mat4`. -/
def col0 (m : Mat4) : V4 := (m.r0.1, m.r1.1, m.r2.1, m.r3.1)

def col1 (m : Mat4) : V4 := (m.r0.2.1, m.r1.2.1, m.r2.2.1, m.r3.2.1)

def col2 (m : Mat4) : V4 := (m.r0.2.2.1, m.r1.2.2.1, m.r2.2.2.1, m.r3.2.2.1)

def col3 (m : Mat4) : V4 := (m.r0.2.2.2, m.r1.2.2.2, m.r2.2.2.2, m.r3.2.2.2)

/-- 4×4 matrix product (vecmath convention used by the external
`camera_controllers` crate). -/
def mat4Mul (a b : Mat4) : Mat4 :=
  let row := fun (r : V4) =>
    (dot4 r (col0 b), dot4 r (col1 b), dot4 r (col2 b), dot4 r (col3 b))
  ⟨row a.r0, row a.r1, row a.r2, row a.r3⟩

/-- `camera_controllers::model_view_projection(model, view, projection)`
(external crate): `(projection * view) * model`. -/
def modelViewProjection (model view projection : Mat4) : Mat4 :=
  mat4Mul (mat4Mul projection view) model

/-- An RGB color sample of the color ramp. -/
abbrev RGBColor := ℝ × ℝ × ℝ

/-- One texel of the color-ramp texture built by
`update_color_map_texture`: `[r*255, g*255, b*255, alpha*255]` bytes. -/
def colorMapTexel (alpha : ℝ) (c : RGBColor) : Texel :=
  (toU8 (c.1 * 255), toU8 (c.2.1 * 255), toU8 (c.2.2 * 255),
   toU8 (alpha * 255))

/-- `update_color_map_texture`: the full ramp texel list. -/
def updateColorMapTexture (colors : List RGBColor) (alpha : ℝ) :
    List Texel :=
  colors.map (colorMapTexel alpha)

/-- `vecmath_util::to_vec4` (external helper crate) padding a position to
a homogeneous 4-vector; the per-component `f32`-to-`u32` bit cast that
follows in `update_position_texture` is a content-preserving
reinterpretation and is not repeated here. -/
def posTexel (s : SoundSource) : V4 :=
  (s.pos.1, s.pos.2.1, s.pos.2.2, 1)

/-- The GPU-facing `pipe::Data` fields mutated by
`AcousticFiledSliceViewer::update`; textures are represented by the texel
lists uploaded into them (`out_color`/`out_depth` render-target handles
are never touched by `update` and are omitted). -/
structure PipeData where
  vertexBuffer : List Vertex
  u_model_view_proj : Mat4
  u_model : Mat4
  u_color_scale : ℝ
  u_wavenum : ℝ
  u_color_map : List Texel
  u_trans_num : ℝ
  u_trans_pos : List V4
  u_trans_drive : List Texel

/-- `update_drive_texture`: early-returns when `sources` is empty,
otherwise replaces the drive texture with one texel per source. -/
def updateDriveTexture (data : PipeData) (sources : List SoundSource) :
    PipeData :=
  if sources.isEmpty then data
  else { data with u_trans_drive := sources.map driveTexel }

/-- `update_position_texture`: early-returns when `sources` is empty,
otherwise replaces the position texture with one texel per source. -/
def updatePositionTexture (data : PipeData) (sources : List SoundSource) :
    PipeData :=
  if sources.isEmpty then data
  else { data with u_trans_pos := sources.map posTexel }

/-- `ViewerSettings` fields consumed by the slice viewer (the struct's
defining module is not under `src/`; per the spec's §3 the slice
width/height are integral and the remaining consumed fields are scalars). -/
structure ViewerSettings where
  slice_width : ℤ
  slice_height : ℤ
  slice_alpha : ℝ
  color_scale : ℝ
  wave_length : ℝ

/-- The mutable state of `AcousticFiledSliceViewer` touched by `update`,
`move_to` and `rotate_to` (`pso`, the compiled shader pipeline, carries
no data and is omitted). -/
structure SliceViewer where
  pipe_data : PipeData
  model : Mat4
  slice : List ℕ
  color_map : List RGBColor

/-- `AcousticFiledSliceViewer::move_to`: `self.model[3] = pos`. -/
def moveTo (v : SliceViewer) (pos : V4) : SliceViewer :=
  { v with model := { v.model with r3 := pos } }

/-- `AcousticFiledSliceViewer::rotate_to`: rebuild the rotation matrix
from the Euler angles, then restore the old translation row. -/
def rotateTo (v : SliceViewer) (euler : V3) : SliceViewer :=
  let rot := mat4Rot (quatEuler euler.1 euler.2.1 euler.2.2)
  { v with model := { rot with r3 := v.model.r3 } }

/-- `AcousticFiledSliceViewer::update`: for each set flag bit, rebuild
exactly the implicated pipe-data fields, in source order. -/
def update (v : SliceViewer) (viewProjection : Mat4 × Mat4)
    (settings : ViewerSettings) (sources : List SoundSource)
    (flag : UpdateFlag) : SliceViewer :=
  let v := if flag.updateSliceSize then
      { v with
        pipe_data := { v.pipe_data with
          vertexBuffer :=
            sliceVertexData settings.slice_width settings.slice_height },
        slice := sliceIndexData }
    else v
  let v := if flag.updateSourceDrive then
      { v with pipe_data := updateDriveTexture v.pipe_data sources }
    else v
  let v := if flag.initSource then
      let countedData := { v.pipe_data with u_trans_num := (sources.length : ℝ) }
      { v with pipe_data := updatePositionTexture countedData sources }
    else v
  let v := if flag.updateColorMap then
      { v with pipe_data := { v.pipe_data with
          u_color_map :=
            updateColorMapTexture v.color_map settings.slice_alpha,
          u_color_scale := settings.color_scale } }
    else v
  let v := if flag.updateWavenum then
      { v with pipe_data := { v.pipe_data with
          u_wavenum := 2 * Real.pi / settings.wave_length } }
    else v
  let v := if flag.updateCameraPos || flag.updateSlicePos
      || flag.updateSliceSize then
      { v with pipe_data := { v.pipe_data with
          u_model := v.model,
          u_model_view_proj :=
            modelViewProjection v.model viewProjection.1
              viewProjection.2 } }
    else v
  v

/-- A concrete transducer used as a test input. -/
def testSource (x : ℝ) : SoundSource := ⟨(x, 0, 0), (0, 0, 1), 0, 0⟩

end

section Helpers

/-- Pointwise view of the Gain arm: the element at `i` of
`handleGain g s` is the driven one when both the zipped byte pairs and
the source array reach `i`, and the original one otherwise. -/
theorem handleGain_getElem (g : Gain) (s : List SoundSource) (i : ℕ) :
    (handleGain g s)[i]? =
      match (g.phases.zip g.amps)[i]?, s[i]? with
      | some pa, some src => some (applyDrive src pa.1 pa.2)
      | _, o => o := by
  simp only [handleGain]
  generalize g.phases.zip g.amps = pa
  induction pa generalizing s i with
  | nil =>
    cases h : s[i]? <;> simp [h]
  | cons p pt ih =>
    cases s with
    | nil => cases i <;> simp
    | cons x xt =>
      cases i with
      | zero => simp
      | succ j => simpa using ih xt j

/-- Unfolded form of `pauseLoop`: zero every amplitude, record the old
amplitudes in order. -/
theorem pauseLoop_eq (l : List SoundSource) :
    pauseLoop l
      = (l.map (fun s => { s with amp := 0 }), l.map SoundSource.amp) := by
  induction l with
  | nil => rfl
  | cons s rest ih => simp [pauseLoop, ih]

/-- `resumeList` on a cons pair. -/
theorem resumeList_cons (x : SoundSource) (xs : List SoundSource) (y : ℝ)
    (ys : List ℝ) :
    resumeList (x :: xs) (y :: ys)
      = { x with amp := y } :: resumeList xs ys := by
  simp [resumeList]

/-- Resuming a paused array with its own recorded amplitudes restores it
exactly. -/
theorem resumeList_pauseLoop (l : List SoundSource) :
    resumeList (l.map (fun s => { s with amp := 0 }))
        (l.map SoundSource.amp) = l := by
  induction l with
  | nil => rfl
  | cons s rest ih => simp [resumeList_cons, ih]

/-- `rustClamp` lands in `[lo, hi]` whenever `lo ≤ hi`. -/
theorem rustClamp_mem (x lo hi : ℤ) (h : lo ≤ hi) :
    lo ≤ rustClamp x lo hi ∧ rustClamp x lo hi ≤ hi :=
  ⟨le_max_left _ _, max_le h (min_le_left _ _)⟩

/-- `sliceExtents` with its let-bindings inlined. -/
theorem sliceExtents_def (width height : ℤ) :
    sliceExtents width height
      = (rustClamp (Int.tdiv (wrap32 (-width)) 2) (-32768) 0,
         rustClamp (Int.tdiv (wrap32 (width + 1)) 2) 0 32767,
         rustClamp (Int.tdiv (wrap32 (-height)) 2) (-32768) 0,
         rustClamp (Int.tdiv (wrap32 (height + 1)) 2) 0 32767) := rfl

end Helpers

/-- C1: the `AutdData::Gain` arm never signals a length-mismatch error:
it is a total update that drives exactly the overlap of the supplied
byte arrays with the live source array.  A gain whose arrays are shorter
than the source array is applied silently to the overlapping prefix —
here a 1-entry gain against 2 sources changes the first source's
amplitude from 0 to 1 while leaving the second untouched, instead of
failing with `LengthMismatch` as the claim states. -/
theorem C1_short_gain_applied_silently :
    (handleGain ⟨[255], [255]⟩ [testSource 0, testSource 1]).map
        SoundSource.amp = [1, 0] ∧
    (handleGain ⟨[255], [255]⟩ [testSource 0, testSource 1]).map
        SoundSource.amp
      ≠ [testSource 0, testSource 1].map SoundSource.amp := by
  have h1 : ((255 : ℕ) : ℝ) / 510 * Real.pi = Real.pi / 2 := by
    push_cast
    ring_nf
  have hg : gainAmp 255 = 1 := by
    rw [gainAmp, h1, Real.sin_pi_div_two]
  constructor
  · simp [handleGain, applyDrive, testSource, hg]
  · simp [handleGain, applyDrive, testSource, hg]

/-- C1 (amended): applying a Gain command performs no error signalling;
it updates exactly the first `min (min phases.length amps.length)
sources.length` sources with the zipped byte pairs and leaves every
other source exactly as it was, preserving the array length — supplied
entries beyond the source array length are ignored. -/
theorem C1_gain_overlap_semantics :
    ∀ (g : Gain) (s : List SoundSource) (i : ℕ),
      (handleGain g s).length = s.length ∧
      (handleGain g s)[i]? =
        match (g.phases.zip g.amps)[i]?, s[i]? with
        | some pa, some src => some (applyDrive src pa.1 pa.2)
        | _, o => o := by
  intro g s i
  constructor
  · simp [handleGain]
    omega
  · exact handleGain_getElem g s i

/-- C3: running `AcousticFiledSliceViewer::update` with an empty
`UpdateFlag` (no new ChangeMask bits raised since the previous
synchronization) rebuilds nothing: the viewer state — vertex buffer,
slice, uniforms, drive/position/color textures — is returned exactly
unchanged. -/
theorem C3_update_empty_flag_noop :
    ∀ (v : SliceViewer) (viewProjection : Mat4 × Mat4)
      (settings : ViewerSettings) (sources : List SoundSource),
      update v viewProjection settings sources UpdateFlag.empty = v :=
  fun _ _ _ _ => rfl

/-- C4: the `AutdData::Clear` arm zeroes amplitude and phase of every
source while preserving positions, orientations and the array length,
and the flag it raises is exactly `UPDATE_SOURCE_DRIVE` — in particular
`INIT_SOURCE` (= SOURCE_POS) stays clear. -/
theorem C4_clear_zeroes_drive_raises_drive_bit :
    ∀ (st : AppState) (i : ℕ),
      ((handleAutdData .clear st).1.sources[i]?.map SoundSource.amp
          = st.sources[i]?.map (fun _ => (0 : ℝ))) ∧
      ((handleAutdData .clear st).1.sources[i]?.map SoundSource.phase
          = st.sources[i]?.map (fun _ => (0 : ℝ))) ∧
      ((handleAutdData .clear st).1.sources[i]?.map SoundSource.pos
          = st.sources[i]?.map SoundSource.pos) ∧
      ((handleAutdData .clear st).1.sources[i]?.map SoundSource.dir
          = st.sources[i]?.map SoundSource.dir) ∧
      (handleAutdData .clear st).2
        = { UpdateFlag.empty with updateSourceDrive := true } := by
  intro st i
  refine ⟨?_, ?_, ?_, ?_, rfl⟩ <;>
    cases h : st.sources[i]? <;> simp [handleAutdData, h]

/-- C5: for any source array state, `Pause` records exactly the
amplitudes in effect immediately before it (in order) while zeroing the
live drive, and a following `Resume` restores the full source array —
amplitudes included — exactly; this covers every `Reset`-then-matching
`UpdateDrive` history, since it holds for every reachable state. -/
theorem C5_pause_resume_roundtrip :
    ∀ (sources : List SoundSource) (lastAmp : List ℝ),
      (handleAutdData .pause ⟨sources, lastAmp⟩).1.lastAmp
        = sources.map SoundSource.amp ∧
      (handleAutdData .resume
          (handleAutdData .pause ⟨sources, lastAmp⟩).1).1.sources
        = sources := by
  intro sources lastAmp
  constructor
  · simp [handleAutdData, pauseLoop_eq]
  · simp [handleAutdData, pauseLoop_eq, resumeList_pauseLoop]

/-- C6: for every requested width and height (including 100000 and -5)
the four half-extents of the slice quad are clamped into the signed
16-bit vertex range — left/bottom into [-32768, 0], right/top into
[0, 32767] — and the construction is total (no crash); at width 100000
and height -5 the extents are (-32768, 32767, 0, 0). -/
theorem C6_slice_extents_clamped :
    (∀ width height : ℤ,
      -32768 ≤ (sliceExtents width height).1 ∧
      (sliceExtents width height).1 ≤ 0 ∧
      0 ≤ (sliceExtents width height).2.1 ∧
      (sliceExtents width height).2.1 ≤ 32767 ∧
      -32768 ≤ (sliceExtents width height).2.2.1 ∧
      (sliceExtents width height).2.2.1 ≤ 0 ∧
      0 ≤ (sliceExtents width height).2.2.2 ∧
      (sliceExtents width height).2.2.2 ≤ 32767) ∧
    sliceExtents 100000 (-5) = (-32768, 32767, 0, 0) := by
  constructor
  · intro width height
    rw [sliceExtents_def]
    refine ⟨(rustClamp_mem _ _ _ (by norm_num)).1,
      (rustClamp_mem _ _ _ (by norm_num)).2,
      (rustClamp_mem _ _ _ (by norm_num)).1,
      (rustClamp_mem _ _ _ (by norm_num)).2,
      (rustClamp_mem _ _ _ (by norm_num)).1,
      (rustClamp_mem _ _ _ (by norm_num)).2,
      (rustClamp_mem _ _ _ (by norm_num)).1,
      (rustClamp_mem _ _ _ (by norm_num)).2⟩
  · decide

/-- C9: with an empty source array both `update_drive_texture` and
`update_position_texture` return immediately: the pipe data — in
particular the previously bound drive and position textures — is left
exactly as it was, and no error is possible. -/
theorem C9_empty_sources_texture_untouched :
    ∀ data : PipeData,
      updateDriveTexture data [] = data ∧
      updatePositionTexture data [] = data :=
  fun _ => ⟨rfl, rfl⟩

/-- C10: `rotate_to` rebuilds only the rotation part of the slice model
matrix, leaving the translation row `model[3]` exactly unchanged, and
`move_to` replaces only the translation row, leaving rows 0-2 (the
rotation part) exactly unchanged. -/
theorem C10_move_rotate_preserve_complement :
    ∀ (v : SliceViewer) (euler : V3) (pos : V4),
      (rotateTo v euler).model.r3 = v.model.r3 ∧
      (moveTo v pos).model.r0 = v.model.r0 ∧
      (moveTo v pos).model.r1 = v.model.r1 ∧
      (moveTo v pos).model.r2 = v.model.r2 ∧
      (moveTo v pos).model.r3 = pos :=
  fun _ _ _ => ⟨rfl, rfl, rfl, rfl, rfl⟩


section QuantizationHelpers

/-- On `[0, 255]` the saturating byte cast is exactly the floor. -/
theorem toU8_eq_floor (x : ℝ) (h0 : 0 ≤ x) (h255 : x ≤ 255) :
    ((toU8 x : ℕ) : ℤ) = ⌊x⌋ := by
  have hf0 : 0 ≤ ⌊x⌋ := Int.floor_nonneg.mpr h0
  have hf255 : ⌊x⌋ ≤ 255 := by
    have h := Int.floor_le_floor h255
    simpa using h
  rw [toU8, min_eq_right hf255, max_eq_right hf0, Int.toNat_of_nonneg hf0]

/-- The floor of a real differs from it by at most one. -/
theorem abs_floor_sub_le_one (x : ℝ) : |((⌊x⌋ : ℤ) : ℝ) - x| ≤ 1 := by
  have h1 : ((⌊x⌋ : ℤ) : ℝ) ≤ x := Int.floor_le x
  have h2 : x - 1 < ((⌊x⌋ : ℤ) : ℝ) := Int.sub_one_lt_floor x
  rw [abs_le]
  constructor <;> linarith

end QuantizationHelpers

/-- C2 (counterexample): the drive texture quantization truncates rather
than rounds.  At amplitude 1/2 the code stores `(0.5 * 255) as u8 = 127`
while rounding to the nearest byte as the claim states would store
`round 127.5 = 128`. -/
theorem C2_amp_byte_truncates_not_rounds :
    ((driveTexel ⟨(0, 0, 0), (0, 0, 1), 1 / 2, 0⟩).2.1 : ℤ) = 127 ∧
    round ((1 / 2 : ℝ) * 255) = 128 ∧
    ((driveTexel ⟨(0, 0, 0), (0, 0, 1), 1 / 2, 0⟩).2.1 : ℤ)
      ≠ round ((1 / 2 : ℝ) * 255) := by
  have hfloor : ⌊(1 / 2 : ℝ) * 255⌋ = 127 := by
    apply Int.floor_eq_iff.mpr
    constructor <;> norm_num
  have h1 : ((driveTexel ⟨(0, 0, 0), (0, 0, 1), 1 / 2, 0⟩).2.1 : ℤ) = 127 := by
    have h := toU8_eq_floor ((1 / 2 : ℝ) * 255) (by norm_num) (by norm_num)
    rw [hfloor] at h
    simpa [driveTexel, encodeAmp] using h
  have h2 : round ((1 / 2 : ℝ) * 255) = 128 := by
    rw [round_eq]
    have : (1 / 2 : ℝ) * 255 + 1 / 2 = 128 := by norm_num
    rw [this]
    exact_mod_cast Int.floor_intCast 128
  exact ⟨h1, h2, by rw [h1, h2]; norm_num⟩

/-- C2 (amended): for in-range drive values (phase in `[0, 2π)`,
amplitude in `[0, 1]`) the drive texture stores the phase byte as
`⌊phase / (2π) * 255⌋` and the amplitude byte as `⌊amp * 255⌋`, i.e. the
quantization truncates toward zero instead of rounding to nearest. -/
theorem C2_drive_texel_floor :
    ∀ s : SoundSource, 0 ≤ s.phase → s.phase < 2 * Real.pi →
      0 ≤ s.amp → s.amp ≤ 1 →
      ((driveTexel s).1 : ℤ) = ⌊s.phase / (2 * Real.pi) * 255⌋ ∧
      ((driveTexel s).2.1 : ℤ) = ⌊s.amp * 255⌋ := by
  intro s hp0 hp2 ha0 ha1
  have hpi := Real.two_pi_pos
  constructor
  · have h0 : 0 ≤ s.phase / (2 * Real.pi) * 255 := by positivity
    have hlt : s.phase / (2 * Real.pi) < 1 := (div_lt_one hpi).mpr hp2
    have h255 : s.phase / (2 * Real.pi) * 255 ≤ 255 := by nlinarith
    simpa [driveTexel, encodePhase] using
      toU8_eq_floor (s.phase / (2 * Real.pi) * 255) h0 h255
  · have h0 : 0 ≤ s.amp * 255 := by positivity
    have h255 : s.amp * 255 ≤ 255 := by nlinarith
    simpa [driveTexel, encodeAmp] using
      toU8_eq_floor (s.amp * 255) h0 h255

/-- C2 witness: the amended statement evaluated at the in-range source
with phase 0 and amplitude 1. -/
theorem C2_drive_texel_floor_witness :
    ((driveTexel ⟨(0, 0, 0), (0, 0, 1), 1, 0⟩).1 : ℤ)
      = ⌊(0 : ℝ) / (2 * Real.pi) * 255⌋ ∧
    ((driveTexel ⟨(0, 0, 0), (0, 0, 1), 1, 0⟩).2.1 : ℤ)
      = ⌊(1 : ℝ) * 255⌋ :=
  C2_drive_texel_floor ⟨(0, 0, 0), (0, 0, 1), 1, 0⟩ le_rfl
    Real.two_pi_pos zero_le_one le_rfl

/-- C8: the 8-bit drive quantization round-trips within one texel step:
for phase in `[0, 2π)` decoding the stored byte back differs from the
phase by at most `2π / 255`, and for amplitude in `[0, 1]` by at most
`1 / 255`. -/
theorem C8_quantization_roundtrip :
    (∀ phase : ℝ, 0 ≤ phase → phase < 2 * Real.pi →
      |decodePhase (encodePhase phase) - phase| ≤ 2 * Real.pi / 255) ∧
    (∀ amp : ℝ, 0 ≤ amp → amp ≤ 1 →
      |decodeAmp (encodeAmp amp) - amp| ≤ 1 / 255) := by
  have hpi := Real.two_pi_pos
  constructor
  · intro phase hp0 hp2
    have h0 : 0 ≤ phase / (2 * Real.pi) * 255 := by positivity
    have hlt : phase / (2 * Real.pi) < 1 := (div_lt_one hpi).mpr hp2
    have h255 : phase / (2 * Real.pi) * 255 ≤ 255 := by nlinarith
    have hb : ((encodePhase phase : ℕ) : ℝ)
        = ((⌊phase / (2 * Real.pi) * 255⌋ : ℤ) : ℝ) := by
      have := toU8_eq_floor (phase / (2 * Real.pi) * 255) h0 h255
      exact_mod_cast congrArg (fun z : ℤ => (z : ℝ)) (by simpa [encodePhase] using this)
    have hval : decodePhase (encodePhase phase) - phase
        = (((⌊phase / (2 * Real.pi) * 255⌋ : ℤ) : ℝ)
            - phase / (2 * Real.pi) * 255) * (2 * Real.pi / 255) := by
      rw [decodePhase, hb]
      field_simp
      ring
    rw [hval, abs_mul, abs_of_pos (by positivity : (0 : ℝ) < 2 * Real.pi / 255)]
    calc |((⌊phase / (2 * Real.pi) * 255⌋ : ℤ) : ℝ)
            - phase / (2 * Real.pi) * 255| * (2 * Real.pi / 255)
        ≤ 1 * (2 * Real.pi / 255) :=
          mul_le_mul_of_nonneg_right
            (abs_floor_sub_le_one (phase / (2 * Real.pi) * 255))
            (by positivity)
      _ = 2 * Real.pi / 255 := one_mul _
  · intro amp ha0 ha1
    have h0 : 0 ≤ amp * 255 := by positivity
    have h255 : amp * 255 ≤ 255 := by nlinarith
    have hb : ((encodeAmp amp : ℕ) : ℝ) = ((⌊amp * 255⌋ : ℤ) : ℝ) := by
      have := toU8_eq_floor (amp * 255) h0 h255
      exact_mod_cast congrArg (fun z : ℤ => (z : ℝ)) (by simpa [encodeAmp] using this)
    have hval : decodeAmp (encodeAmp amp) - amp
        = (((⌊amp * 255⌋ : ℤ) : ℝ) - amp * 255) * (1 / 255) := by
      rw [decodeAmp, hb]
      ring
    rw [hval, abs_mul, abs_of_pos (by norm_num : (0 : ℝ) < 1 / 255)]
    calc |((⌊amp * 255⌋ : ℤ) : ℝ) - amp * 255| * (1 / 255)
        ≤ 1 * (1 / 255) :=
          mul_le_mul_of_nonneg_right (abs_floor_sub_le_one (amp * 255))
            (by norm_num)
      _ = 1 / 255 := one_mul _

/-- C8 witness: the round-trip bound evaluated at phase 0 and
amplitude 0. -/
theorem C8_quantization_roundtrip_witness :
    |decodePhase (encodePhase 0) - 0| ≤ 2 * Real.pi / 255 ∧
    |decodeAmp (encodeAmp 0) - 0| ≤ 1 / 255 :=
  ⟨C8_quantization_roundtrip.1 0 le_rfl Real.two_pi_pos,
   C8_quantization_roundtrip.2 0 le_rfl zero_le_one⟩

/-- The drive part of the Source data-model invariant, as the code
actually establishes it: amplitude in `[0, 1]` and phase in `[0, 2π]`
(the upper phase bound is attained, see the counterexample). -/
def DriveBounds (s : SoundSource) : Prop :=
  0 ≤ s.amp ∧ s.amp ≤ 1 ∧ 0 ≤ s.phase ∧ s.phase ≤ 2 * Real.pi

section GainBoundsHelpers

/-- Members of a `zipWith` come from members of the two lists. -/
theorem exists_of_mem_zipWith {α β γ : Type} {f : α → β → γ} :
    ∀ {l1 : List α} {l2 : List β} {c : γ}, c ∈ List.zipWith f l1 l2 →
      ∃ a ∈ l1, ∃ b ∈ l2, c = f a b := by
  intro l1
  induction l1 with
  | nil =>
    intro l2 c h
    simp at h
  | cons x xs ih =>
    intro l2 c h
    cases l2 with
    | nil => simp at h
    | cons y ys =>
      simp only [List.zipWith_cons_cons, List.mem_cons] at h
      rcases h with h | h
      · exact ⟨x, by simp, y, by simp, h⟩
      · rcases ih h with ⟨a, ha, b, hb, rfl⟩
        exact ⟨a, by simp [ha], b, by simp [hb], rfl⟩

/-- The drive written for one in-range byte pair satisfies the bounds:
the duty-to-amplitude map `sin(amp / 510 * π)` lands in `[0, 1]` and the
phase map `2π (1 - phase / 255)` lands in `[0, 2π]`. -/
theorem applyDrive_bounds (s : SoundSource) (phaseByte ampByte : ℕ)
    (hp : phaseByte ≤ 255) (ha : ampByte ≤ 255) :
    DriveBounds (applyDrive s phaseByte ampByte) := by
  have hπ := Real.pi_pos
  have hac : ((ampByte : ℕ) : ℝ) ≤ 255 := by exact_mod_cast ha
  have hpc : ((phaseByte : ℕ) : ℝ) ≤ 255 := by exact_mod_cast hp
  have ha0 : (0 : ℝ) ≤ (ampByte : ℝ) := Nat.cast_nonneg _
  have hp0 : (0 : ℝ) ≤ (phaseByte : ℝ) := Nat.cast_nonneg _
  refine ⟨?_, ?_, ?_, ?_⟩
  · show 0 ≤ gainAmp ampByte
    apply Real.sin_nonneg_of_nonneg_of_le_pi
    · positivity
    · rw [div_mul_eq_mul_div]
      rw [div_le_iff₀ (by norm_num : (0 : ℝ) < 510)]
      nlinarith
  · exact Real.sin_le_one _
  · show 0 ≤ gainPhase phaseByte
    rw [gainPhase]
    have : (phaseByte : ℝ) / 255 ≤ 1 := by
      rw [div_le_one (by norm_num : (0 : ℝ) < 255)]
      exact hpc
    nlinarith
  · show gainPhase phaseByte ≤ 2 * Real.pi
    rw [gainPhase]
    have : (0 : ℝ) ≤ (phaseByte : ℝ) / 255 := by positivity
    nlinarith

end GainBoundsHelpers

/-- C7 (counterexample): the Gain arm does not keep the phase inside
`[0, 2π)`.  A gain frame with phase byte 0 drives the phase to
`2π (1 - 0/255) = 2π`, which is outside `[0, 2π)`, so not every source
satisfies `phase < 2π` after a Gain command. -/
theorem C7_phase_byte_zero_gives_two_pi :
    ¬ (∀ src ∈ handleGain ⟨[0], [255]⟩ [testSource 0],
        src.phase < 2 * Real.pi) := by
  intro h
  have hmem : applyDrive (testSource 0) 0 255
      ∈ handleGain ⟨[0], [255]⟩ [testSource 0] := by
    simp [handleGain]
  have hlt : (2 : ℝ) * Real.pi < 2 * Real.pi := by
    simpa [applyDrive, gainPhase] using h _ hmem
  exact lt_irrefl _ hlt

/-- C7 (amended): after any Gain command whose byte arrays are in `u8`
range, every source of an array that satisfied the drive bounds before
still satisfies amplitude in `[0, 1]` and phase in `[0, 2π]`.  The phase
interval is closed at `2π` (attained at phase byte 0), not half-open as
the data-model invariant `[0, 2π)` states. -/
theorem C7_gain_drive_bounds :
    ∀ (g : Gain) (s : List SoundSource),
      (∀ b ∈ g.phases, b ≤ 255) → (∀ b ∈ g.amps, b ≤ 255) →
      (∀ src ∈ s, DriveBounds src) →
      ∀ src ∈ handleGain g s, DriveBounds src := by
  intro g s hp ha hs src hmem
  simp only [handleGain, List.mem_append] at hmem
  rcases hmem with hmem | hmem
  · rcases exists_of_mem_zipWith hmem with ⟨pa, hpa, b, _, rfl⟩
    rcases List.of_mem_zip hpa with ⟨hp1, ha1⟩
    exact applyDrive_bounds b pa.1 pa.2 (hp _ hp1) (ha _ ha1)
  · exact hs src (List.mem_of_mem_drop hmem)

/-- C7 witness: the amended bounds at the concrete gain
`phases = [0], amps = [255]` applied to one in-bounds source. -/
theorem C7_gain_drive_bounds_witness :
    DriveBounds (applyDrive (testSource 0) 0 255) :=
  C7_gain_drive_bounds ⟨[0], [255]⟩ [testSource 0]
    (by simp) (by simp)
    (by
      intro src hsrc
      rw [List.mem_singleton] at hsrc
      subst hsrc
      refine ⟨le_rfl, zero_le_one, le_rfl, ?_⟩
      positivity)
    (applyDrive (testSource 0) 0 255)
    (by simp [handleGain])
